import Mathlib

/-!
Shallow embedding of `sdk/physical/cache.go` from openbao: a write-through
LRU caching layer wrapped around a physical key-value backend.

Two embeddings are developed.

* The value-level model (`Cache`, `Cache.Put`, `Cache.Get`, `Cache.Delete`,
  `Cache.Purge`, ...) renders every branch of the Go source over byte
  sequences modelled as `List Nat`.  Backend calls and lock operations are
  recorded in an event trace so that "no backend call", "no lock acquired"
  and lock-ordering statements are expressible.
* A pointer-level model (`Heap`, `PEntry`, `pPut`, `pGet`) renders the same
  `Put`/`Get` code with byte buffers as heap identifiers, so that aliasing
  between caller-held buffers and cached buffers is expressible.

External collaborators that are not part of the translated file
(`hashicorp/golang-lru`'s `TwoQueueCache`, `locksutil`, `pathmanager`) are
modelled from the spec where noted.
-/

/-- A byte sequence (Go `[]byte` contents). -/
abbrev Bytes := List Nat

/-- `physical.Entry` (Go: Key, Value []byte, ValueHash []byte, SealWrap bool).
`Option Bytes` distinguishes a nil slice from a non-nil one, because the
source tests `entry.Value != nil` before cloning. -/
structure Entry where
  key : String
  value : Option Bytes
  valueHash : Option Bytes
  sealWrap : Bool
deriving DecidableEq, Repr

/-- A Go `interface\x7b\x7d` value as stored in the LRU.  `Cache.Get` stores a
possibly-nil `*Entry` (a typed pointer boxed into an interface, which compares
unequal to the untyped nil interface even when the pointer is nil), while the
`raw == nil` test in the source only matches the untyped nil interface.  Both
shapes are therefore modelled. -/
inductive LruVal where
  | nilInterface
  | entryPtr (e : Option Entry)
deriving DecidableEq, Repr

/-- Modelled from the spec: the external eviction policy
(`hashicorp/golang-lru` `TwoQueueCache`), a bounded two-queue key-value map,
abstracted here as an association-list map keyed by `String`.  The claims
under verification never exercise capacity-based eviction, only the
`Add`/`Get`/`Remove`/`Purge` map behavior. -/
abbrev Lru := List (String × LruVal)

/-- `lru.Get key` (lookup only; recency bookkeeping is internal to the
eviction policy and not observable by the claims). -/
def lruGet (l : Lru) (k : String) : Option LruVal :=
  (l.find? (fun p => p.1 == k)).map (·.2)

/-- `lru.Add key v`: insert or overwrite. -/
def lruAdd (l : Lru) (k : String) (v : LruVal) : Lru :=
  (k, v) :: l.filter (fun p => p.1 != k)

/-- `lru.Remove key`: remove if present, no-op otherwise. -/
def lruRemove (l : Lru) (k : String) : Lru :=
  l.filter (fun p => p.1 != k)

/-- `lru.Purge()`: empty the policy. -/
def lruPurge : Lru := []

/-- `DefaultCacheSize = 128 * 1024`. -/
def DefaultCacheSize : Int := 128 * 1024

/-- `refreshCacheCtxKey = "refresh_cache"`. -/
def refreshCacheCtxKey : String := "refresh_cache"

/-- `cacheExceptionsPaths` from the source, verbatim. -/
def cacheExceptionsPaths : List String :=
  ["wal/logs/", "index/pages/", "index-dr/pages/", "sys/expire/",
   "core/poison-pill", "core/raft/tls", "core/seal-config",
   "core/recovery-config"]

/-- String prefix test, computed on the character lists. -/
def strPrefixOf (p s : String) : Bool := p.toList.isPrefixOf s.toList

/-- Modelled from the spec: `pathmanager.PathManager.HasPath`, the external
"static prefix-membership predicate" over the exception list (spec §6:
"predicate matches(key) -> bool over a static prefix set"). -/
def hasPath (paths : List String) (key : String) : Bool :=
  paths.any (fun p => strPrefixOf p key)

/-- A value stored in a `context.Context`: either a `bool` (what the type
assertion `.(bool)` accepts) or some other dynamic type. -/
inductive CtxVal where
  | boolVal (b : Bool)
  | otherVal
deriving DecidableEq, Repr

/-- A `context.Context` value chain: `WithValue` prepends, lookup returns the
innermost binding. -/
abbrev Ctx := List (String × CtxVal)

/-- `ctx.Value k`. -/
def ctxValue (ctx : Ctx) (k : String) : Option CtxVal :=
  (ctx.find? (fun p => p.1 == k)).map (·.2)

/-- `CacheRefreshContext(ctx, r) = context.WithValue(ctx, refreshCacheCtxKey, r)`. -/
def CacheRefreshContext (ctx : Ctx) (r : Bool) : Ctx :=
  (refreshCacheCtxKey, CtxVal.boolVal r) :: ctx

/-- `cacheRefreshFromContext(ctx)`: the type assertion
`r, ok := ctx.Value(refreshCacheCtxKey).(bool)` yields `ok = false` (hence
result `false`) when the key is absent or the value is not a `bool`. -/
def cacheRefreshFromContext (ctx : Ctx) : Bool :=
  match ctxValue ctx refreshCacheCtxKey with
  | some (CtxVal.boolVal r) => r
  | _ => false

/-- Modelled from the spec: `locksutil` keeps a fixed array of 256 shard
locks (spec §4.2: "a fixed-size array of N independent exclusive/shared
locks, N chosen at construction (a small constant)"). -/
def numLocks : Nat := 256

/-- Modelled from the spec: `locksutil.LockForKey`, "a deterministic hash of
the key selects exactly one shard" (spec §4.2).  The concrete hash is a
stand-in; no claim depends on which shard a key maps to. -/
def lockForKey (key : String) : Nat :=
  (key.toList.foldl (fun a c => a + c.toNat) 0) % numLocks

/-- Observable effects of one cache operation: backend calls and shard-lock
operations, in program order. -/
inductive Event where
  | bPut (e : Entry)
  | bGet (k : String)
  | bDelete (k : String)
  | lockEx (i : Nat)
  | unlockEx (i : Nat)
  | lockSh (i : Nat)
  | unlockSh (i : Nat)
deriving DecidableEq, Repr

/-- The state of `physical.Cache` observable by the claims: the eviction
policy contents, the enable flag, the configured LRU capacity, and the
metric counters (`cache.hit`, `cache.miss`, `cache.write`). -/
structure Cache where
  lru : Lru
  enabled : Bool
  size : Int
  hits : Nat
  misses : Nat
  writes : Nat
deriving DecidableEq, Repr

/-- The external backend (spec §6), as pure response functions.  `bput` and
`bdelete` return `none` on success and `some msg` on error; `bget` returns
the entry-or-nil result together with an optional error (the cache checks
the error first, as the source does). -/
structure Backend where
  bput : Entry → Option String
  bget : String → Option Entry × Option String
  bdelete : String → Option String

/-- `NewCache`: a non-positive size is replaced by `DefaultCacheSize`; the
cache starts with an empty LRU and `enabled := new(uint32)` (zero, i.e.
disabled). -/
def NewCache (size : Int) : Cache :=
  { lru := []
    enabled := false
    size := if size ≤ 0 then DefaultCacheSize else size
    hits := 0
    misses := 0
    writes := 0 }

/-- `Cache.ShouldCache`: false when the enable flag is zero, otherwise the
negation of the exception-path predicate. -/
def Cache.ShouldCache (c : Cache) (key : String) : Bool :=
  if !c.enabled then false
  else !(hasPath cacheExceptionsPaths key)

/-- `Cache.SetEnabled`: stores 1 or 0 into the flag; nothing else. -/
def Cache.SetEnabled (c : Cache) (enabled : Bool) : Cache :=
  { c with enabled := enabled }

/-- `copy(dst, src)` after `make([]byte, len(src))`: a freshly
allocated buffer with equal contents.  At the value level the copy has the
same contents; freshness is expressed in the pointer-level model below. -/
def copyBytes (bs : Bytes) : Bytes := bs

/-- The clone built inside `Cache.Put` on backend success: Key and SealWrap
are copied, Value and ValueHash are cloned only when non-nil. -/
def cloneEntry (e : Entry) : Entry :=
  { key := e.key
    sealWrap := e.sealWrap
    value := e.value.map copyBytes
    valueHash := e.valueHash.map copyBytes }

/-- Result of `Cache.Put`: the returned `error`, or a nil-pointer
dereference (`entry.Key` on a nil `entry`, which the source reaches when
`entry == nil`, since the forward guard requires `entry != nil`). -/
inductive PutRes where
  | ok (err : Option String)
  | nilDeref
deriving DecidableEq, Repr

/-- `Cache.Put(ctx, entry)`.  Returns the result, the new cache state, and
the event trace. -/
def Cache.Put (c : Cache) (b : Backend) (entry : Option Entry) :
    PutRes × Cache × List Event :=
  match entry with
  | some e =>
    if !(c.ShouldCache e.key) then
      -- entry != nil && !c.ShouldCache(entry.Key): forward to the backend
      (PutRes.ok (b.bput e), c, [Event.bPut e])
    else
      let i := lockForKey e.key
      match b.bput e with
      | none =>
        let cacheEntry := cloneEntry e
        (PutRes.ok none,
         { c with
             lru := lruAdd c.lru e.key (LruVal.entryPtr (some cacheEntry))
             writes := c.writes + 1 },
         [Event.lockEx i, Event.bPut e, Event.unlockEx i])
      | some msg =>
        (PutRes.ok (some msg), c,
         [Event.lockEx i, Event.bPut e, Event.unlockEx i])
  | none =>
    -- the guard `entry != nil && ...` is false, so control reaches
    -- `locksutil.LockForKey(c.locks, entry.Key)` and dereferences nil
    (PutRes.nilDeref, c, [])

/-- `Cache.Get(ctx, key)`.  Returns (entry-or-nil, error), the new cache
state, and the event trace. -/
def Cache.Get (c : Cache) (b : Backend) (ctx : Ctx) (key : String) :
    (Option Entry × Option String) × Cache × List Event :=
  if !(c.ShouldCache key) then
    (b.bget key, c, [Event.bGet key])
  else
    let i := lockForKey key
    match (if cacheRefreshFromContext ctx then none else lruGet c.lru key) with
    | some LruVal.nilInterface =>
      -- `if raw == nil { return nil, nil }`: only the untyped nil interface
      ((none, none), c, [Event.lockSh i, Event.unlockSh i])
    | some (LruVal.entryPtr e) =>
      -- hit: increment cache.hit and return raw.(*Entry)
      ((e, none), { c with hits := c.hits + 1 },
       [Event.lockSh i, Event.unlockSh i])
    | none =>
      -- miss (or forced refresh): increment cache.miss, read the backend
      let c1 := { c with misses := c.misses + 1 }
      match b.bget key with
      | (_, some msg) =>
        ((none, some msg), c1,
         [Event.lockSh i, Event.bGet key, Event.unlockSh i])
      | (ent, none) =>
        -- cache the result, even if nil
        ((ent, none),
         { c1 with lru := lruAdd c1.lru key (LruVal.entryPtr ent) },
         [Event.lockSh i, Event.bGet key, Event.unlockSh i])

/-- `Cache.Delete(ctx, key)`. -/
def Cache.Delete (c : Cache) (b : Backend) (key : String) :
    Option String × Cache × List Event :=
  if !(c.ShouldCache key) then
    (b.bdelete key, c, [Event.bDelete key])
  else
    let i := lockForKey key
    match b.bdelete key with
    | none =>
      (none, { c with lru := lruRemove c.lru key },
       [Event.lockEx i, Event.bDelete key, Event.unlockEx i])
    | some msg =>
      (some msg, c, [Event.lockEx i, Event.bDelete key, Event.unlockEx i])

/-- The `for _, lock := range c.locks` loop of `Cache.Purge`: each iteration
acquires the next lock and pushes its deferred unlock onto the defer stack
(LIFO).  Returns the acquisition trace and the final defer stack. -/
def lockAll (idxs : List Nat) (defers : List Event) :
    List Event × List Event :=
  match idxs with
  | [] => ([], defers)
  | i :: rest =>
    let r := lockAll rest (Event.unlockEx i :: defers)
    (Event.lockEx i :: r.1, r.2)

/-- `Cache.Purge(ctx)`: lock the world in array order, purge the LRU, then
the deferred unlocks run in LIFO order on function exit. -/
def Cache.Purge (c : Cache) : Cache × List Event :=
  let r := lockAll (List.range numLocks) []
  ({ c with lru := lruPurge }, r.1 ++ r.2)

/-! ## Pointer-level model

The value-level model above cannot express aliasing.  The model below
renders the same `Put`/`Get` code with byte buffers as identifiers into an
explicit heap, so that "the cached buffer is (or is not) the caller's
buffer" is expressible.  Only the cacheable (locked) branches are rendered;
the branch structure around them is exactly the value-level model's. -/

/-- `physical.Entry` at the pointer level: `value`/`valueHash` hold the
identifier of a heap buffer (`none` is a nil slice). -/
structure PEntry where
  key : String
  value : Option Nat
  valueHash : Option Nat
  sealWrap : Bool
deriving DecidableEq, Repr

/-- A heap of byte buffers: `next` is the next fresh identifier, `data`
maps identifiers to contents. -/
structure Heap where
  next : Nat
  data : List (Nat × Bytes)
deriving DecidableEq, Repr

/-- Read buffer `i` (unallocated identifiers read as empty). -/
def heapRead (h : Heap) (i : Nat) : Bytes :=
  ((h.data.find? (fun p => p.1 == i)).map (·.2)).getD []

/-- Mutate buffer `i` in place (what a caller does to a buffer it holds). -/
def heapWrite (h : Heap) (i : Nat) (bs : Bytes) : Heap :=
  { h with data := (i, bs) :: h.data.filter (fun p => p.1 != i) }

/-- `make([]byte, n)` + `copy`: allocate a fresh buffer holding `bs`. -/
def heapAlloc (h : Heap) (bs : Bytes) : Heap × Nat :=
  ({ next := h.next + 1, data := (h.next, bs) :: h.data }, h.next)

/-- Clone one possibly-nil buffer: `if b != nil { make + copy }`. -/
def pCloneBuf (h : Heap) (v : Option Nat) : Heap × Option Nat :=
  match v with
  | none => (h, none)
  | some b =>
    let r := heapAlloc h (heapRead h b)
    (r.1, some r.2)

/-- The clone built inside `Cache.Put` on backend success, at the pointer
level: fresh buffers for the non-nil variable-length fields. -/
def pCloneEntry (h : Heap) (e : PEntry) : Heap × PEntry :=
  let rv := pCloneBuf h e.value
  let rh := pCloneBuf rv.1 e.valueHash
  (rh.1,
   { key := e.key, sealWrap := e.sealWrap, value := rv.2, valueHash := rh.2 })

/-- The LRU at the pointer level: the stored interface value is the `*Entry`
pointer itself (possibly nil). -/
abbrev PLru := List (String × Option PEntry)

def pLruGet (l : PLru) (k : String) : Option (Option PEntry) :=
  (l.find? (fun p => p.1 == k)).map (·.2)

def pLruAdd (l : PLru) (k : String) (v : Option PEntry) : PLru :=
  (k, v) :: l.filter (fun p => p.1 != k)

/-- The backend at the pointer level; `bget` returns a pointer to an entry
whose buffers live in the heap. -/
structure PBackend where
  bput : PEntry → Option String
  bget : String → Option PEntry × Option String

/-- The locked branch of `Cache.Put` (non-nil entry, `ShouldCache` true) at
the pointer level: on backend success the clone — with freshly allocated
buffers — is inserted; on failure heap and LRU are untouched.  Returns
(result, heap, lru). -/
def pPut (b : PBackend) (h : Heap) (l : PLru) (e : PEntry) :
    Option String × Heap × PLru :=
  match b.bput e with
  | none =>
    let r := pCloneEntry h e
    (none, r.1, pLruAdd l e.key (some r.2))
  | some msg => (some msg, h, l)

/-- The cacheable branch of `Cache.Get` with forced refresh not set, at the
pointer level: a hit returns the stored pointer itself (`return
raw.(*Entry)`); a miss stores the backend-returned pointer unchanged
(`c.lru.Add(key, ent)`) and returns that same pointer.  The heap is never
touched: no copy is made in either direction. -/
def pGet (b : PBackend) (l : PLru) (key : String) :
    (Option PEntry × Option String) × PLru :=
  match pLruGet l key with
  | some e => ((e, none), l)
  | none =>
    match b.bget key with
    | (_, some msg) => ((none, some msg), l)
    | (ent, none) => ((ent, none), pLruAdd l key ent)

/-! ## Concrete fixtures used by witnesses and counterexamples -/

/-- A backend for which every call succeeds. -/
def okBackend : Backend :=
  { bput := fun _ => none
    bget := fun k => (some { key := k, value := some [1, 2, 3], valueHash := none, sealWrap := false }, none)
    bdelete := fun _ => none }

/-- A backend for which every call fails. -/
def failBackend : Backend :=
  { bput := fun _ => some "boom"
    bget := fun _ => (none, some "boom")
    bdelete := fun _ => some "boom" }

/-- A sample entry under a cacheable key. -/
def eFoo : Entry :=
  { key := "foo", value := some [1, 2, 3], valueHash := some [4], sealWrap := false }

/-- An enabled cache. -/
def cOn : Cache := (NewCache 10).SetEnabled true

/-- An enabled cache holding the Confirmed-Absent sentinel for "foo": the
typed-nil `*Entry` that `Cache.Get` stores after a backend read that found
nothing. -/
def cAbsent : Cache := { cOn with lru := [("foo", LruVal.entryPtr none)] }

/-! ## Claim theorems -/

/-- At the value level a cloned buffer equals the original. -/
theorem map_copyBytes (v : Option Bytes) : v.map copyBytes = v := by
  cases v <;> rfl

/-- C1: for a cacheable key and a non-nil record, `Put` writes to the
backend under the key's exclusive lock; only when the backend write
succeeds does it insert a copy of the record (`cloneEntry e`, equal to `e`)
into the eviction policy and increment the write counter; on a backend
error the error is returned unchanged and the cache state — in particular
the eviction policy — is exactly what it was before the call. -/
theorem put_writes_through_only_on_success (c : Cache) (b : Backend) (e : Entry)
    (h : c.ShouldCache e.key = true) :
    (b.bput e = none →
      c.Put b (some e) =
        (PutRes.ok none,
         { c with
             lru := lruAdd c.lru e.key (LruVal.entryPtr (some (cloneEntry e)))
             writes := c.writes + 1 },
         [Event.lockEx (lockForKey e.key), Event.bPut e,
          Event.unlockEx (lockForKey e.key)])) ∧
    (∀ msg, b.bput e = some msg →
      c.Put b (some e) =
        (PutRes.ok (some msg), c,
         [Event.lockEx (lockForKey e.key), Event.bPut e,
          Event.unlockEx (lockForKey e.key)])) ∧
    cloneEntry e = e := by
  refine ⟨fun hb => ?_, fun msg hb => ?_, ?_⟩
  · simp [Cache.Put, h, hb]
  · simp [Cache.Put, h, hb]
  · cases e
    simp [cloneEntry, map_copyBytes]

/-- Witness for C1 at a concrete input: enabled cache, cacheable key,
succeeding backend. -/
theorem put_writes_through_only_on_success_witness :
    cOn.Put okBackend (some eFoo) =
      (PutRes.ok none,
       { cOn with
           lru := lruAdd cOn.lru eFoo.key (LruVal.entryPtr (some (cloneEntry eFoo)))
           writes := cOn.writes + 1 },
       [Event.lockEx (lockForKey eFoo.key), Event.bPut eFoo,
        Event.unlockEx (lockForKey eFoo.key)]) :=
  (put_writes_through_only_on_success cOn okBackend eFoo (by decide)).1 (by decide)

/-- C2 counterexample: `Put` with an absent (nil) record is not forwarded
to the backend.  At this concrete input the backend is never called (the
event trace is empty) and no backend result is returned: the call
dereferences the nil record (`entry.Key` in `locksutil.LockForKey`), which
contradicts the claim that such a call "is forwarded directly to the
backend's Put ... and returns the backend's result unchanged". -/
theorem put_nil_record_counterexample :
    (NewCache 10).Put okBackend none = (PutRes.nilDeref, NewCache 10, []) := by
  decide

/-- C2 (amended): a `Put` whose record is present and whose key is not
cacheable is forwarded directly to the backend — no lock event, no cache
mutation, backend result returned unchanged.  A `Put` whose record is
absent (nil) is not forwarded: the guard requires a non-nil record, and the
call dereferences the nil record before any lock, backend call, or cache
mutation. -/
theorem put_forward_and_nil_deref (c : Cache) (b : Backend) (e : Entry)
    (h : c.ShouldCache e.key = false) :
    c.Put b (some e) = (PutRes.ok (b.bput e), c, [Event.bPut e]) ∧
    c.Put b none = (PutRes.nilDeref, c, []) := by
  constructor
  · simp [Cache.Put, h]
  · simp [Cache.Put]

/-- Witness for the amended C2: a disabled cache forwards a non-nil record
directly. -/
theorem put_forward_and_nil_deref_witness :
    (NewCache 10).Put failBackend (some eFoo) =
      (PutRes.ok (some "boom"), NewCache 10, [Event.bPut eFoo]) :=
  (put_forward_and_nil_deref (NewCache 10) failBackend eFoo (by decide)).1

/-- C8: a newly constructed cache is disabled — `ShouldCache` is false for
every key — and `SetEnabled` in either direction modifies only the enable
flag, so disabling and re-enabling leaves every cached entry in the
eviction policy untouched. -/
theorem new_cache_disabled_and_set_enabled_flag_only
    (c : Cache) (size : Int) (key : String) (en : Bool) :
    (NewCache size).ShouldCache key = false ∧
    c.SetEnabled en = { c with enabled := en } ∧
    ((c.SetEnabled false).SetEnabled true).lru = c.lru ∧
    (c.SetEnabled false).SetEnabled true = { c with enabled := true } := by
  refine ⟨?_, rfl, rfl, rfl⟩
  simp [NewCache, Cache.ShouldCache]

/-- C9: construction never fails on the size argument: a non-positive size
is replaced by `DefaultCacheSize = 131072 = 128 * 1024`, a positive size is
used as given, and the effective size is always positive. -/
theorem new_cache_size_defaulting (size : Int) :
    (size ≤ 0 → (NewCache size).size = 131072) ∧
    (0 < size → (NewCache size).size = size) ∧
    0 < (NewCache size).size ∧
    DefaultCacheSize = 131072 := by
  refine ⟨fun h => ?_, fun h => ?_, ?_, rfl⟩
  · simp [NewCache, h, DefaultCacheSize]
  · simp [NewCache, DefaultCacheSize]
    omega
  · simp [NewCache, DefaultCacheSize]
    split <;> omega

/-- Witness for C9 at size 0: the default is substituted. -/
theorem new_cache_size_defaulting_witness :
    (NewCache 0).size = 131072 :=
  (new_cache_size_defaulting 0).1 (by decide)

/-- C4: for a cacheable key with forced refresh not set, when the eviction
policy holds an entry — a present record or the Confirmed-Absent typed-nil
sentinel stored by `Cache.Get` — `Get` returns that cached result, increments
the cache-hit counter, and performs no backend call (the trace holds only
the shared lock acquisition and release). -/
theorem get_hit_returns_cached_no_backend
    (c : Cache) (b : Backend) (ctx : Ctx) (key : String) (e : Option Entry)
    (hs : c.ShouldCache key = true)
    (hr : cacheRefreshFromContext ctx = false)
    (hl : lruGet c.lru key = some (LruVal.entryPtr e)) :
    c.Get b ctx key =
      ((e, none), { c with hits := c.hits + 1 },
       [Event.lockSh (lockForKey key), Event.unlockSh (lockForKey key)]) := by
  simp [Cache.Get, hs, hr, hl]

/-- Witness for C4 at a concrete input: the Confirmed-Absent sentinel for
"foo" is served from the cache with a hit-counter increment and no backend
call. -/
theorem get_hit_returns_cached_no_backend_witness :
    cAbsent.Get failBackend [] "foo" =
      (((none : Option Entry), (none : Option String)),
       { cAbsent with hits := cAbsent.hits + 1 },
       [Event.lockSh (lockForKey "foo"), Event.unlockSh (lockForKey "foo")]) :=
  get_hit_returns_cached_no_backend cAbsent failBackend [] "foo" none
    (by decide) (by decide) (by decide)

/-- C5: for a cacheable key, when `Get` misses the eviction policy or is
called with forced refresh set, it increments the cache-miss counter and
queries the backend; on a backend error the error is returned untouched and
the eviction policy is not mutated; on success the result — the typed-nil
pointer standing for Confirmed-Absent included — is added to the eviction
policy before being returned. -/
theorem get_miss_reads_backend_and_caches
    (c : Cache) (b : Backend) (ctx : Ctx) (key : String)
    (hs : c.ShouldCache key = true)
    (hm : cacheRefreshFromContext ctx = true ∨
          (cacheRefreshFromContext ctx = false ∧ lruGet c.lru key = none)) :
    (∀ ent msg, b.bget key = (ent, some msg) →
      c.Get b ctx key =
        ((none, some msg), { c with misses := c.misses + 1 },
         [Event.lockSh (lockForKey key), Event.bGet key,
          Event.unlockSh (lockForKey key)])) ∧
    (∀ ent, b.bget key = (ent, none) →
      c.Get b ctx key =
        ((ent, none),
         { c with
             misses := c.misses + 1
             lru := lruAdd c.lru key (LruVal.entryPtr ent) },
         [Event.lockSh (lockForKey key), Event.bGet key,
          Event.unlockSh (lockForKey key)])) := by
  constructor
  · intro ent msg hb
    rcases hm with hm | ⟨hm, hl⟩ <;> simp [Cache.Get, hs, hm, hb, *]
  · intro ent hb
    rcases hm with hm | ⟨hm, hl⟩ <;> simp [Cache.Get, hs, hm, hb, *]

/-- Witness for C5 at a concrete input: a miss on an empty enabled cache
reads the backend and caches the returned record. -/
theorem get_miss_reads_backend_and_caches_witness :
    cOn.Get okBackend [] "foo" =
      ((some { key := "foo", value := some [1, 2, 3], valueHash := none, sealWrap := false },
        (none : Option String)),
       { cOn with
           misses := cOn.misses + 1
           lru := lruAdd cOn.lru "foo"
             (LruVal.entryPtr (some { key := "foo", value := some [1, 2, 3], valueHash := none, sealWrap := false })) },
       [Event.lockSh (lockForKey "foo"), Event.bGet "foo",
        Event.unlockSh (lockForKey "foo")]) :=
  (get_miss_reads_backend_and_caches cOn okBackend [] "foo" (by decide)
      (Or.inr ⟨by decide, by decide⟩)).2
    (some { key := "foo", value := some [1, 2, 3], valueHash := none, sealWrap := false })
    (by decide)

/-- C6: for a cacheable key, `Delete` deletes from the backend under the
exclusive lock and removes the key from the eviction policy only when the
backend delete succeeds; on a backend error the error is returned and the
cache state — any entry cached under the key included — is exactly what it
was before the call; a non-cacheable key is forwarded directly. -/
theorem delete_removes_only_on_success (c : Cache) (b : Backend) (key : String) :
    (c.ShouldCache key = false →
      c.Delete b key = (b.bdelete key, c, [Event.bDelete key])) ∧
    (c.ShouldCache key = true →
      (b.bdelete key = none →
        c.Delete b key =
          (none, { c with lru := lruRemove c.lru key },
           [Event.lockEx (lockForKey key), Event.bDelete key,
            Event.unlockEx (lockForKey key)])) ∧
      (∀ msg, b.bdelete key = some msg →
        c.Delete b key =
          (some msg, c,
           [Event.lockEx (lockForKey key), Event.bDelete key,
            Event.unlockEx (lockForKey key)]))) := by
  refine ⟨fun h => ?_, fun h => ⟨fun hb => ?_, fun msg hb => ?_⟩⟩ <;>
    simp [Cache.Delete, h, *]

/-- Witness for C6 at a concrete input: a failing backend delete leaves the
cached entry for "foo" untouched and returns the error. -/
theorem delete_removes_only_on_success_witness :
    cAbsent.Delete failBackend "foo" =
      (some "boom", cAbsent,
       [Event.lockEx (lockForKey "foo"), Event.bDelete "foo",
        Event.unlockEx (lockForKey "foo")]) :=
  ((delete_removes_only_on_success cAbsent failBackend "foo").2 (by decide)).2
    "boom" (by decide)

/-- The acquisition half of the `Purge` lock loop: one exclusive lock per
array index, in array order. -/
theorem lockAll_acquires (idxs : List Nat) (defers : List Event) :
    (lockAll idxs defers).1 = idxs.map Event.lockEx := by
  induction idxs generalizing defers with
  | nil => rfl
  | cons i rest ih => simp [lockAll, ih]

/-- The defer stack built by the `Purge` lock loop: the unlocks of the
acquired locks in reverse (LIFO) order, on top of the stack passed in. -/
theorem lockAll_defers (idxs : List Nat) (defers : List Event) :
    (lockAll idxs defers).2 = (idxs.map Event.unlockEx).reverse ++ defers := by
  induction idxs generalizing defers with
  | nil => rfl
  | cons i rest ih => simp [lockAll, ih]

/-- C7: `Purge` acquires every shard lock exclusively in ascending array
index order — the same fixed order on every call — empties the eviction
policy, and the deferred releases cover every acquired lock (they run in
reverse order on function exit, the only exit path); afterwards no key has
a cached entry, so the next cacheable `Get` for any key queries the
backend. -/
theorem purge_locks_in_order_and_empties (c : Cache) :
    c.Purge =
      ({ c with lru := lruPurge },
       (List.range numLocks).map Event.lockEx ++
         ((List.range numLocks).map Event.unlockEx).reverse) ∧
    List.Pairwise (· < ·) (List.range numLocks) ∧
    (∀ key, lruGet c.Purge.1.lru key = none) ∧
    (∀ b ctx key, c.Purge.1.ShouldCache key = true →
      cacheRefreshFromContext ctx = false →
      Event.bGet key ∈ (c.Purge.1.Get b ctx key).2.2) := by
  refine ⟨?_, List.pairwise_lt_range numLocks, fun key => ?_, ?_⟩
  · simp [Cache.Purge, lockAll_acquires, lockAll_defers]
  · simp [Cache.Purge, lruPurge, lruGet]
  · intro b ctx key hs hr
    have hl : lruGet c.Purge.1.lru key = none := by
      simp [Cache.Purge, lruPurge, lruGet]
    rcases hb : b.bget key with ⟨ent, err⟩
    cases err <;> simp [Cache.Get, hs, hr, hl, hb]

/-- Witness for C7 at a concrete input: after purging a cache that held the
"foo" sentinel, a cacheable `Get` for "foo" reaches the backend. -/
theorem purge_locks_in_order_and_empties_witness :
    Event.bGet "foo" ∈ (cAbsent.Purge.1.Get okBackend [] "foo").2.2 :=
  (purge_locks_in_order_and_empties cAbsent).2.2.2 okBackend [] "foo"
    (by decide) (by decide)

/-- C10: a `Get` whose context carries no forced-refresh value, or carries
one that is not a boolean, behaves exactly as a `Get` whose context was
built with the refresh flag false: `cacheRefreshFromContext` yields false,
the whole call coincides with the refresh-false call, and whenever the
eviction policy holds any entry for a cacheable key no backend call is
made (the cache is probed first).  Conversely the probe is skipped only
when the context value under the refresh key is the boolean true. -/
theorem refresh_absent_or_non_bool_defaults_false
    (c : Cache) (b : Backend) (ctx : Ctx) (key : String)
    (h : ∀ bv : Bool, ctxValue ctx refreshCacheCtxKey ≠ some (CtxVal.boolVal bv)) :
    cacheRefreshFromContext ctx = false ∧
    c.Get b ctx key = c.Get b (CacheRefreshContext ctx false) key ∧
    (c.ShouldCache key = true → ∀ v, lruGet c.lru key = some v →
      Event.bGet key ∉ (c.Get b ctx key).2.2) ∧
    (∀ ctx2 : Ctx, cacheRefreshFromContext ctx2 = true →
      ctxValue ctx2 refreshCacheCtxKey = some (CtxVal.boolVal true)) := by
  have hfalse : cacheRefreshFromContext ctx = false := by
    unfold cacheRefreshFromContext
    rcases hv : ctxValue ctx refreshCacheCtxKey with _ | v
    · rfl
    · cases v with
      | boolVal bv => exact absurd hv (h bv)
      | otherVal => rfl
  have hctx : cacheRefreshFromContext (CacheRefreshContext ctx false) = false := by
    simp [cacheRefreshFromContext, CacheRefreshContext, ctxValue, List.find?]
  refine ⟨hfalse, ?_, ?_, ?_⟩
  · simp [Cache.Get, hfalse, hctx]
  · intro hs v hv
    cases v <;> simp [Cache.Get, hs, hfalse, hv]
  · intro ctx2 h2
    unfold cacheRefreshFromContext at h2
    rcases hv : ctxValue ctx2 refreshCacheCtxKey with _ | v
    · rw [hv] at h2; exact absurd h2 (by simp)
    · cases v with
      | boolVal bv => rw [hv] at h2; simp at h2; subst h2; rfl
      | otherVal => rw [hv] at h2; exact absurd h2 (by simp)

/-- Witness for C10 at a concrete input: a context carrying a non-boolean
value under the refresh key defaults to no refresh. -/
theorem refresh_absent_or_non_bool_defaults_false_witness :
    cacheRefreshFromContext [(refreshCacheCtxKey, CtxVal.otherVal)] = false :=
  (refresh_absent_or_non_bool_defaults_false cOn okBackend
      [(refreshCacheCtxKey, CtxVal.otherVal)] "foo" (by decide)).1

/-- Filtering out the entries keyed `i` does not change a lookup for a
different key `j`. -/
theorem find_filter_ne (d : List (Nat × Bytes)) (i j : Nat) (hne : j ≠ i) :
    ((d.filter (fun p => p.1 != i)).find? (fun p => p.1 == j)) =
      d.find? (fun p => p.1 == j) := by
  induction d with
  | nil => rfl
  | cons hd tl ih =>
    by_cases h1 : hd.1 = i
    · rw [List.filter_cons_of_neg (by simp [h1]),
        List.find?_cons_of_neg _ (by simp [h1, Ne.symm hne]), ih]
    · rw [List.filter_cons_of_pos (by simp [h1])]
      by_cases h2 : hd.1 = j
      · rw [List.find?_cons_of_pos _ (by simp [h2]),
          List.find?_cons_of_pos _ (by simp [h2])]
      · rw [List.find?_cons_of_neg _ (by simp [h2]),
          List.find?_cons_of_neg _ (by simp [h2]), ih]

/-- Writing buffer `i` leaves the contents of a different buffer `j`
unchanged. -/
theorem heapRead_heapWrite_ne (h : Heap) (i j : Nat) (bs : Bytes)
    (hne : j ≠ i) :
    heapRead (heapWrite h i bs) j = heapRead h j := by
  unfold heapRead heapWrite
  simp [List.find?, show (i == j) = false from by simp [Ne.symm hne],
    find_filter_ne h.data i j hne]

/-- A fresh allocation holds exactly the bytes it was given. -/
theorem heapRead_heapAlloc_same (h : Heap) (bs : Bytes) :
    heapRead (heapAlloc h bs).1 h.next = bs := by
  simp [heapRead, heapAlloc, List.find?]

/-- A fresh allocation leaves every other buffer unchanged. -/
theorem heapRead_heapAlloc_ne (h : Heap) (bs : Bytes) (j : Nat)
    (hne : j ≠ h.next) :
    heapRead (heapAlloc h bs).1 j = heapRead h j := by
  simp [heapRead, heapAlloc, List.find?,
    show (h.next == j) = false from by simp [Ne.symm hne]]

/-- C3 (amended): only `Put` deep-copies on admission.  For a record whose
value lives in caller-held buffer `i`, the clone `Put` inserts holds a
freshly allocated buffer (identifier `h.next`, necessarily distinct from
every caller-held identifier) with equal contents, and a later caller write
through `i` does not change the clone's contents; on backend success `pPut`
stores exactly that clone.  By contrast, a cache-miss `Get` admits the
backend-returned record without any copy and returns that same record to
the caller, and a `Get` hit returns the stored record itself — for records
admitted by `Get`, caller and cache share buffers. -/
theorem put_clones_but_get_aliases (b : PBackend) (h : Heap) (l : PLru)
    (e : PEntry) (i : Nat) (hv : e.value = some i) (hi : i < h.next) :
    ((pCloneEntry h e).2.value = some h.next ∧
     h.next ≠ i ∧
     heapRead (pCloneEntry h e).1 h.next = heapRead h i ∧
     (∀ bs, heapRead (heapWrite (pCloneEntry h e).1 i bs) h.next =
        heapRead (pCloneEntry h e).1 h.next)) ∧
    (b.bput e = none →
      pPut b h l e =
        (none, (pCloneEntry h e).1, pLruAdd l e.key (some (pCloneEntry h e).2))) ∧
    (∀ pe, pLruGet l e.key = some pe → pGet b l e.key = ((pe, none), l)) ∧
    (pLruGet l e.key = none → ∀ ent, b.bget e.key = (ent, none) →
      pGet b l e.key = ((ent, none), pLruAdd l e.key ent)) := by
  have hni : h.next ≠ i := Nat.ne_of_gt hi
  refine ⟨⟨?_, hni, ?_, fun bs => heapRead_heapWrite_ne _ i h.next bs hni⟩,
    fun hb => ?_, fun pe hl => ?_, fun hl ent hb => ?_⟩
  · simp [pCloneEntry, pCloneBuf, heapAlloc, hv]
  · cases hvh : e.valueHash with
    | none =>
      simp [pCloneEntry, pCloneBuf, hv, hvh, heapRead_heapAlloc_same]
    | some bh =>
      simp only [pCloneEntry, pCloneBuf, hv, hvh]
      rw [heapRead_heapAlloc_ne _ _ h.next (by simp [heapAlloc])]
      exact heapRead_heapAlloc_same h (heapRead h i)
  · simp [pPut, hb]
  · simp [pGet, hl]
  · simp [pGet, hl, hb]

/-- The record admitted by a cache-miss `Get` and its cached copy. -/
def peK : PEntry := { key := "k", value := some 0, valueHash := none, sealWrap := false }

/-- A heap with one caller-visible buffer, identifier 0, contents [1,2,3]. -/
def h0 : Heap := { next := 1, data := [(0, [1, 2, 3])] }

/-- A pointer-level backend whose reads return `peK` and whose writes
succeed. -/
def pb0 : PBackend := { bput := fun _ => none, bget := fun _ => (some peK, none) }

/-- Witness for the amended C3 at a concrete input: cloning `peK` over `h0`
allocates the fresh buffer 1 with the contents of buffer 0. -/
theorem put_clones_but_get_aliases_witness :
    (pCloneEntry h0 peK).2.value = some 1 ∧
    heapRead (pCloneEntry h0 peK).1 1 = heapRead h0 0 :=
  ⟨(put_clones_but_get_aliases pb0 h0 [] peK 0 (by decide) (by decide)).1.1,
   (put_clones_but_get_aliases pb0 h0 [] peK 0 (by decide) (by decide)).1.2.2.1⟩

/-- C3 counterexample: a cache-miss `Get` admits a record into the eviction
policy whose value buffer (identifier 0) is the very buffer of the record
returned to the caller — not a freshly allocated copy — and a subsequent
hit returns the stored record itself.  Mutating the caller-held buffer 0
after the call returns therefore changes cached state: the bytes read
through the cached record's buffer change from [1,2,3] to [9].  This
refutes the claim that every admitted record's byte fields are fresh copies
never aliased with caller-held buffers. -/
theorem get_admission_aliases_counterexample :
    (pGet pb0 [] "k").1.1 = some peK ∧
    pLruGet (pGet pb0 [] "k").2 "k" = some (some peK) ∧
    (pGet pb0 (pGet pb0 [] "k").2 "k").1.1 = some peK ∧
    peK.value = some 0 ∧
    heapRead h0 0 = [1, 2, 3] ∧
    heapRead (heapWrite h0 0 [9]) 0 = [9] := by decide
